import Mathlib

/-!
Shallow embedding of the mavt (Mobile App Version Tracker) core:
the record store (`internal/storage/storage.go`), the tracker
(`internal/tracker/tracker.go`) and the App Store catalog client
(`internal/appstore/client.go`), together with theorems settling the
specification claims about them.

Modelling conventions:
* Timestamps (`time.Time`) are `Nat` ticks; `time.Now()` is an explicit
  `now : Nat` parameter threaded to the operations that call it.
* `float64` prices never take part in any claim's computation, so the
  field is carried opaquely as `Int`.
* The on-disk JSON files become an association list keyed by file name
  (the bundle identifier); a file is either a decodable record
  (`.good`) or an undecodable one (`.corrupt`), which lets the model
  reproduce exactly how each storage operation reacts to a corrupt
  encoding.  Environmental I/O failures (disk full, permission denied)
  are not modelled; decode failures are.
* Network calls are environment functions passed in as parameters
  (`lookup`, the search endpoint, the notifier's send), so the tracker
  code is embedded over an arbitrary remote behaviour.
-/

namespace Mavt

/-- `models.AppInfo` (pkg/models/app.go): the current-state snapshot of a
tracked app. -/
structure AppInfo where
  bundleID : String
  trackID : Int
  trackName : String
  version : String
  releaseDate : Nat
  releaseNotes : String
  artistName : String
  minOSVersion : String
  fileSizeBytes : Int
  price : Int
  currency : String
  lastChecked : Nat
  firstDiscovered : Nat
deriving DecidableEq, Repr

/-- `models.VersionUpdate` (pkg/models/app.go): one recorded version
change event. -/
structure VersionUpdate where
  bundleID : String
  trackID : Int
  trackName : String
  oldVersion : String
  newVersion : String
  updatedAt : Nat
  releaseNotes : String
deriving DecidableEq, Repr

/-- One on-disk current-state file: either a decodable `AppInfo` record or
corrupt (undecodable) bytes. -/
inductive AppFile where
  | good (app : AppInfo)
  | corrupt
deriving DecidableEq, Repr

/-- One on-disk history file: either a decodable list of `VersionUpdate`
records or corrupt (undecodable) bytes. -/
inductive UpdFile where
  | good (updates : List VersionUpdate)
  | corrupt
deriving DecidableEq, Repr

/-- Read the file named `k` from a directory modelled as an association
list (first match wins, as file names are unique on a real disk). -/
def getFile {α : Type} : List (String × α) → String → Option α
  | [], _ => none
  | (k, v) :: t, k' => if k = k' then some v else getFile t k'

/-- Write the file named `k`: overwrite the existing entry in place, or
create the file at the end of the directory. -/
def setFile {α : Type} : List (String × α) → String → α → List (String × α)
  | [], k, v => [(k, v)]
  | (k', v') :: t, k, v => if k' = k then (k, v) :: t else (k', v') :: setFile t k v

/-- `storage.Storage` (internal/storage/storage.go): the `apps/` directory
of current-state files and the `updates/` directory of history files. -/
structure Storage where
  apps : List (String × AppFile)
  updates : List (String × UpdFile)
deriving DecidableEq, Repr

/-- Errors a storage operation can surface. The model only produces
`decode` (a malformed on-disk record); environmental I/O failures are
outside the model. -/
inductive StorageError where
  | decode
deriving DecidableEq, Repr

/-- `Storage.SaveApp` (storage.go:32): marshal `app` and write it to
`apps/<bundleID>.json`. Marshalling a well-typed record cannot fail, so
the model write always succeeds. -/
def SaveApp (st : Storage) (app : AppInfo) : Storage :=
  { st with apps := setFile st.apps app.bundleID (.good app) }

/-- `Storage.LoadApp` (storage.go:54): a missing file is the non-error
`none` outcome; an unmarshal failure is surfaced as a decode error. -/
def LoadApp (st : Storage) (bundleID : String) : Except StorageError (Option AppInfo) :=
  match getFile st.apps bundleID with
  | none => .ok none
  | some .corrupt => .error .decode
  | some (.good a) => .ok (some a)

/-- `Storage.SaveVersionUpdate` (storage.go:76): read the existing
history file, decode it into `updates` — the `json.Unmarshal` error is
discarded (storage.go:88), so a corrupt file leaves `updates` empty —
append the new record and write the whole sequence back. -/
def SaveVersionUpdate (st : Storage) (update : VersionUpdate) : Storage :=
  let existing : List VersionUpdate :=
    match getFile st.updates update.bundleID with
    | some (.good us) => us
    | some .corrupt => []
    | none => []
  { st with updates := setFile st.updates update.bundleID (.good (existing ++ [update])) }

/-- `Storage.GetAllApps` (storage.go:107): list the `apps/` directory and
decode each file; files that fail to read or decode are skipped with
`continue` (storage.go:126-134), never surfaced as errors. A missing
directory yields the empty list. -/
def GetAllApps (st : Storage) : Except StorageError (List AppInfo) :=
  .ok (st.apps.filterMap fun p =>
    match p.2 with
    | .good a => some a
    | .corrupt => none)

/-- `Storage.GetVersionUpdates` (storage.go:143): a missing history file
is the empty list; an unmarshal failure is surfaced as a decode error. -/
def GetVersionUpdates (st : Storage) (bundleID : String) :
    Except StorageError (List VersionUpdate) :=
  match getFile st.updates bundleID with
  | none => .ok []
  | some .corrupt => .error .decode
  | some (.good us) => .ok us

/-- A fixed sample snapshot used by concrete-input witnesses. -/
def sampleApp (bid ver : String) (fd : Nat) : AppInfo :=
  { bundleID := bid
    trackID := 1
    trackName := "Sample"
    version := ver
    releaseDate := 0
    releaseNotes := "notes"
    artistName := "dev"
    minOSVersion := "15.0"
    fileSizeBytes := 4
    price := 0
    currency := "USD"
    lastChecked := 0
    firstDiscovered := fd }

theorem getFile_setFile_self {α : Type} (l : List (String × α)) (k : String) (v : α) :
    getFile (setFile l k v) k = some v := by
  induction l with
  | nil => simp [setFile, getFile]
  | cons p t ih =>
    obtain ⟨k', v'⟩ := p
    by_cases h : k' = k
    · simp [setFile, getFile, h]
    · simp [setFile, getFile, h, ih]

theorem getFile_setFile_ne {α : Type} (l : List (String × α)) (k k' : String) (v : α)
    (h : k' ≠ k) : getFile (setFile l k v) k' = getFile l k' := by
  induction l with
  | nil => simp [setFile, getFile, Ne.symm h]
  | cons p t ih =>
    obtain ⟨k₀, v₀⟩ := p
    by_cases h0 : k₀ = k
    · subst h0
      simp [setFile, getFile, Ne.symm h]
    · simp only [setFile, if_neg h0, getFile, ih]

/-- Errors the catalog client (`appstore.Client`) can return from a
lookup: network failure, a non-200 HTTP status, an undecodable response
body, zero results, or — for fidelity — the case where the decoded
`resultCount` is nonzero yet `Results` is empty, on which the Go code
would fail at `Results[0]` (client.go:81). -/
inductive LookupError where
  | network
  | status (code : Nat)
  | decode
  | notFound
  | emptyResults
deriving DecidableEq, Repr

/-- The remote lookup as the tracker sees it
(`Client.LookupByBundleID`): an environment function from bundle ID to
either an error or the converted snapshot. -/
abbrev Lookup := String → Except LookupError AppInfo

/-- Errors `checkSingleApp` can return. Saves are infallible in the
model, so only the initial fetch can fail. -/
inductive CheckError where
  | fetchFailed (e : LookupError)
deriving DecidableEq, Repr

/-- `Tracker.checkSingleApp` (tracker.go:108): fetch the current snapshot
for the stored app's bundle ID; carry the stored `FirstDiscovered`
forward; if the version strings differ, save a `VersionUpdate` and then
the fresh snapshot; otherwise stamp `LastChecked` and save the fresh
snapshot. Returns the new storage state and the produced update, if
any. -/
def checkSingleApp (lookup : Lookup) (now : Nat) (st : Storage) (existingApp : AppInfo) :
    Except CheckError (Storage × Option VersionUpdate) :=
  match lookup existingApp.bundleID with
  | .error e => .error (.fetchFailed e)
  | .ok fetched =>
    let currentApp := { fetched with firstDiscovered := existingApp.firstDiscovered }
    if currentApp.version ≠ existingApp.version then
      let update : VersionUpdate :=
        { bundleID := currentApp.bundleID
          trackID := currentApp.trackID
          trackName := currentApp.trackName
          oldVersion := existingApp.version
          newVersion := currentApp.version
          updatedAt := now
          releaseNotes := currentApp.releaseNotes }
      .ok (SaveApp (SaveVersionUpdate st update) currentApp, some update)
    else
      .ok (SaveApp st { currentApp with lastChecked := now }, none)

/-- `notifier.Notifier` as the tracker consumes it: an enabled flag
(`IsEnabled`) and a send operation (`NotifyUpdates`) whose outcome is an
environment function of the batch. -/
structure Notifier where
  enabled : Bool
  send : List VersionUpdate → Except String Unit

/-- The observable log events `CheckForUpdates` emits via `log.Printf`:
a per-item check failure (tracker.go:87) and a notification-delivery
failure (tracker.go:99). -/
inductive LogEvent where
  | checkFailed (bundleID : String)
  | notifyFailed
deriving DecidableEq, Repr

/-- The per-item loop of `Tracker.CheckForUpdates` (tracker.go:84-94):
check each app in turn; on error, log and continue; otherwise collect
the update (if one was produced) and carry the storage state forward. -/
def checkLoop (lookup : Lookup) (now : Nat) :
    List AppInfo → Storage → Storage × List VersionUpdate × List LogEvent
  | [], st => (st, [], [])
  | app :: rest, st =>
    match checkSingleApp lookup now st app with
    | .error _ =>
      let r := checkLoop lookup now rest st
      (r.1, r.2.1, .checkFailed app.bundleID :: r.2.2)
    | .ok (st', u?) =>
      let r := checkLoop lookup now rest st'
      match u? with
      | some u => (r.1, u :: r.2.1, r.2.2)
      | none => (r.1, r.2.1, r.2.2)

/-- `Tracker.CheckForUpdates` (tracker.go:76): enumerate the tracked
apps, run the per-item loop, then — if any updates were found and the
notifier is enabled — send the batch, logging (and otherwise ignoring) a
delivery failure. Returns the batch of updates together with the final
storage state and the log. -/
def CheckForUpdates (lookup : Lookup) (now : Nat) (ntf : Notifier) (st : Storage) :
    Except StorageError (Storage × List VersionUpdate × List LogEvent) :=
  match GetAllApps st with
  | .error e => .error e
  | .ok apps =>
    let r := checkLoop lookup now apps st
    let logs :=
      if r.2.1.length > 0 ∧ ntf.enabled then
        match ntf.send r.2.1 with
        | .error _ => r.2.2 ++ [.notifyFailed]
        | .ok _ => r.2.2
      else r.2.2
    .ok (r.1, r.2.1, logs)

/-- Errors `TrackApp` can return: lookup failure or a failure loading
the existing record. -/
inductive TrackError where
  | lookupFailed (e : LookupError)
  | loadFailed (e : StorageError)
deriving DecidableEq, Repr

/-- `Tracker.TrackApp` (tracker.go:47): look the app up; load any
existing record; if one exists, carry its `FirstDiscovered` onto the
fresh snapshot; save. A first-time track saves the fresh snapshot as
is (its `FirstDiscovered` was set to the fetch time by
`convertToAppInfo`). -/
def TrackApp (lookup : Lookup) (st : Storage) (bundleID : String) :
    Except TrackError Storage :=
  match lookup bundleID with
  | .error e => .error (.lookupFailed e)
  | .ok app =>
    match LoadApp st bundleID with
    | .error e => .error (.loadFailed e)
    | .ok none => .ok (SaveApp st app)
    | .ok (some existing) => .ok (SaveApp st { app with firstDiscovered := existing.firstDiscovered })

/-- Modelled from the spec: `Tracker.RemoveApp` and the store-level
removal it delegates to are not under `src/` (only the HTTP caller
`handleTrack` in the server is); §4.2 specifies `removeItem(identifier)`
as deleting both the current-state record and the full history for the
identifier. -/
def RemoveApp (st : Storage) (bundleID : String) : Storage :=
  { apps := st.apps.filter fun p => p.1 ≠ bundleID
    updates := st.updates.filter fun p => p.1 ≠ bundleID }

/-- `Tracker.GetVersionHistory` (tracker.go:163): pure passthrough to
the store's `GetVersionUpdates`. -/
def GetVersionHistory (st : Storage) (bundleID : String) :
    Except StorageError (List VersionUpdate) :=
  GetVersionUpdates st bundleID

/-- `appstore.iTunesApp` (client.go:40): one raw record of the iTunes
API response. `currentVersionReleaseDate` and `fileSizeBytes` arrive as
strings and are parsed during conversion. -/
structure ITunesApp where
  trackId : Int
  bundleId : String
  trackName : String
  version : String
  currentVersionReleaseDate : String
  releaseNotes : String
  artistName : String
  minimumOsVersion : String
  fileSizeBytes : String
  price : Int
  currency : String
deriving DecidableEq, Repr

/-- `appstore.iTunesResponse` (client.go:34): the decoded response body.
`resultCount` is decoded independently of `results`, as in the Go
struct. -/
structure ITunesResponse where
  resultCount : Int
  results : List ITunesApp
deriving DecidableEq, Repr

/-- Model of `fmt.Sscanf(s, "%d", &x)` (client.go:165): skip leading
whitespace, accept an optional sign, then a nonempty run of decimal
digits; `none` when no digit can be scanned (in Go the target variable
then keeps its zero value). -/
def scanInt (s : String) : Option Int :=
  let cs := s.toList.dropWhile fun c => c = ' ' ∨ c = '\t' ∨ c = '\n' ∨ c = '\r'
  let signed : Bool × List Char :=
    match cs with
    | '-' :: t => (true, t)
    | '+' :: t => (false, t)
    | _ => (false, cs)
  let ds := signed.2.takeWhile Char.isDigit
  if ds.isEmpty then none
  else
    let n : Nat := ds.foldl (fun acc c => acc * 10 + (c.toNat - 48)) 0
    some (if signed.1 then -(n : Int) else (n : Int))

/-- `Client.convertToAppInfo` (client.go:158): parse the release date,
falling back to `now` when `time.Parse` fails; scan the file size,
falling back to `0` when `Sscanf` fails; stamp `LastChecked` and
`FirstDiscovered` with `now`; always return `ok` (the Go function's
error result is invariably `nil`). `parseDate` stands for the stdlib
RFC 3339 parser, which is environment to this model. -/
def convertToAppInfo (parseDate : String → Option Nat) (now : Nat) (app : ITunesApp) :
    Except LookupError AppInfo :=
  let releaseDate : Nat :=
    match parseDate app.currentVersionReleaseDate with
    | some d => d
    | none => now
  let fileSize : Int := (scanInt app.fileSizeBytes).getD 0
  .ok { bundleID := app.bundleId
        trackID := app.trackId
        trackName := app.trackName
        version := app.version
        releaseDate := releaseDate
        releaseNotes := app.releaseNotes
        artistName := app.artistName
        minOSVersion := app.minimumOsVersion
        fileSizeBytes := fileSize
        price := app.price
        currency := app.currency
        lastChecked := now
        firstDiscovered := now }

/-- The outcome of one HTTP GET against the iTunes API: a transport
error, or a reply with a status code and a body that either decodes to
an `ITunesResponse` or does not. -/
inductive FetchOutcome where
  | netError
  | reply (status : Nat) (body : Option ITunesResponse)
deriving DecidableEq, Repr

/-- `Client.LookupByBundleID` (client.go:55) applied to the outcome of
its HTTP GET: network failure, non-200 status, an undecodable body and
zero results are each surfaced as errors; otherwise the first result is
converted. A decoded response whose `resultCount` is nonzero but whose
`results` list is empty would make the Go code fail at `Results[0]`;
that case is modelled as the distinct `emptyResults` error. -/
def LookupByBundleID (fetch : FetchOutcome) (parseDate : String → Option Nat) (now : Nat) :
    Except LookupError AppInfo :=
  match fetch with
  | .netError => .error .network
  | .reply status body =>
    if status ≠ 200 then .error (.status status)
    else
      match body with
      | none => .error .decode
      | some itr =>
        if itr.resultCount = 0 then .error .notFound
        else
          match itr.results with
          | a :: _ => convertToAppInfo parseDate now a
          | [] => .error .emptyResults

/-- The limit normalization at the top of `Client.SearchApps`
(client.go:116-121): a non-positive limit defaults to 10, anything above
50 is clamped to 50. -/
def clampSearchLimit (limit : Int) : Int :=
  let limit1 : Int := if limit ≤ 0 then 10 else limit
  if limit1 > 50 then 50 else limit1

/-- `Client.SearchApps` (client.go:115): the caller-requested limit is
normalized by `clampSearchLimit` before the request is issued; on a
decoded 200 reply, every result that converts is collected (conversion
failures are skipped — and in fact never occur). `api` stands for the
remote search endpoint as a function of the term and the limit actually
sent. -/
def SearchApps (api : String → Int → FetchOutcome) (parseDate : String → Option Nat)
    (now : Nat) (term : String) (limit : Int) : Except LookupError (List AppInfo) :=
  match api term (clampSearchLimit limit) with
  | .netError => .error .network
  | .reply status body =>
    if status ≠ 200 then .error (.status status)
    else
      match body with
      | none => .error .decode
      | some itr =>
        .ok (itr.results.filterMap fun a =>
          match convertToAppInfo parseDate now a with
          | .ok x => some x
          | .error _ => none)

theorem LoadApp_SaveApp_self (st : Storage) (a : AppInfo) :
    LoadApp (SaveApp st a) a.bundleID = .ok (some a) := by
  simp [LoadApp, SaveApp, getFile_setFile_self]

theorem LoadApp_SaveVersionUpdate (st : Storage) (u : VersionUpdate) (b : String) :
    LoadApp (SaveVersionUpdate st u) b = LoadApp st b := by
  simp [LoadApp, SaveVersionUpdate]

theorem GetVersionUpdates_SaveApp (st : Storage) (a : AppInfo) (b : String) :
    GetVersionUpdates (SaveApp st a) b = GetVersionUpdates st b := by
  simp [GetVersionUpdates, SaveApp]

theorem GetVersionUpdates_SaveVersionUpdate_self (st : Storage) (u : VersionUpdate)
    (us : List VersionUpdate) (h : GetVersionUpdates st u.bundleID = .ok us) :
    GetVersionUpdates (SaveVersionUpdate st u) u.bundleID = .ok (us ++ [u]) := by
  cases hg : getFile st.updates u.bundleID with
  | none =>
    have hus : us = [] := by
      unfold GetVersionUpdates at h
      rw [hg] at h
      simpa using h.symm
    subst hus
    simp [GetVersionUpdates, SaveVersionUpdate, hg, getFile_setFile_self]
  | some f =>
    cases f with
    | corrupt =>
      exfalso
      unfold GetVersionUpdates at h
      rw [hg] at h
      simp at h
    | good l =>
      have hus : us = l := by
        unfold GetVersionUpdates at h
        rw [hg] at h
        simpa using h.symm
      subst hus
      simp [GetVersionUpdates, SaveVersionUpdate, hg, getFile_setFile_self]

/-- C1: for a tracked item whose fresh lookup succeeds, `checkSingleApp`
produces a `VersionUpdate` iff the fetched version string differs from
the stored one (exact string inequality, downgrades included); when it
does, the update carries `old_version` = stored version and
`new_version` = fetched version, the history grows by exactly that one
record, and the stored current-state record's version becomes the
fetched version. -/
theorem checkSingleApp_change_detection
    (lookup : Lookup) (now : Nat) (st : Storage) (existing fetched : AppInfo)
    (hl : lookup existing.bundleID = .ok fetched)
    (hb : fetched.bundleID = existing.bundleID) :
    ∃ st' u?, checkSingleApp lookup now st existing = .ok (st', u?) ∧
      (u?.isSome ↔ fetched.version ≠ existing.version) ∧
      ∀ u, u? = some u →
        u.oldVersion = existing.version ∧
        u.newVersion = fetched.version ∧
        (∀ us, GetVersionUpdates st existing.bundleID = .ok us →
          GetVersionUpdates st' existing.bundleID = .ok (us ++ [u])) ∧
        ∃ cur, LoadApp st' existing.bundleID = .ok (some cur) ∧
          cur.version = fetched.version := by
  by_cases hv : fetched.version = existing.version
  · refine ⟨SaveApp st
        { fetched with firstDiscovered := existing.firstDiscovered, lastChecked := now },
      none, ?_, by simp [hv], by simp⟩
    unfold checkSingleApp
    rw [hl]
    simp [hv]
  · refine ⟨SaveApp
        (SaveVersionUpdate st
          { bundleID := fetched.bundleID, trackID := fetched.trackID,
            trackName := fetched.trackName, oldVersion := existing.version,
            newVersion := fetched.version, updatedAt := now,
            releaseNotes := fetched.releaseNotes })
        { fetched with firstDiscovered := existing.firstDiscovered },
      some
        { bundleID := fetched.bundleID, trackID := fetched.trackID,
          trackName := fetched.trackName, oldVersion := existing.version,
          newVersion := fetched.version, updatedAt := now,
          releaseNotes := fetched.releaseNotes }, ?_, by simp [hv], ?_⟩
    · unfold checkSingleApp
      rw [hl]
      simp [hv]
    · intro u hu
      simp only [Option.some.injEq] at hu
      subst hu
      refine ⟨rfl, rfl, ?_, ?_⟩
      · intro us hus
        rw [GetVersionUpdates_SaveApp]
        have := GetVersionUpdates_SaveVersionUpdate_self st
          { bundleID := fetched.bundleID, trackID := fetched.trackID,
            trackName := fetched.trackName, oldVersion := existing.version,
            newVersion := fetched.version, updatedAt := now,
            releaseNotes := fetched.releaseNotes } us (by rw [hb]; exact hus)
        simpa [hb] using this
      · refine ⟨{ fetched with firstDiscovered := existing.firstDiscovered }, ?_, rfl⟩
        have := LoadApp_SaveApp_self
          (SaveVersionUpdate st
            { bundleID := fetched.bundleID, trackID := fetched.trackID,
              trackName := fetched.trackName, oldVersion := existing.version,
              newVersion := fetched.version, updatedAt := now,
              releaseNotes := fetched.releaseNotes })
          { fetched with firstDiscovered := existing.firstDiscovered }
        simpa [hb] using this

/-- Concrete instantiation of `checkSingleApp_change_detection`: stored
version "1.0", fetched version "1.0.1". -/
theorem checkSingleApp_change_detection_witness :
    ∃ st' u?, checkSingleApp (fun _ => .ok (sampleApp "com.a" "1.0.1" 7)) 9
        ⟨[], []⟩ (sampleApp "com.a" "1.0" 3) = .ok (st', u?) ∧
      (u?.isSome ↔ (sampleApp "com.a" "1.0.1" 7).version ≠ (sampleApp "com.a" "1.0" 3).version) ∧
      ∀ u, u? = some u →
        u.oldVersion = (sampleApp "com.a" "1.0" 3).version ∧
        u.newVersion = (sampleApp "com.a" "1.0.1" 7).version ∧
        (∀ us, GetVersionUpdates ⟨[], []⟩ (sampleApp "com.a" "1.0" 3).bundleID = .ok us →
          GetVersionUpdates st' (sampleApp "com.a" "1.0" 3).bundleID = .ok (us ++ [u])) ∧
        ∃ cur, LoadApp st' (sampleApp "com.a" "1.0" 3).bundleID = .ok (some cur) ∧
          cur.version = (sampleApp "com.a" "1.0.1" 7).version :=
  checkSingleApp_change_detection (fun _ => .ok (sampleApp "com.a" "1.0.1" 7)) 9
    ⟨[], []⟩ (sampleApp "com.a" "1.0" 3) (sampleApp "com.a" "1.0.1" 7) rfl rfl

/-- C6: when the fetched version equals the stored one, `checkSingleApp`
produces no update, stamps `last_checked` with the current time, carries
`first_discovered` over, persists the fresh snapshot (replacing all
other metadata fields with the fetched values) and leaves every history
sequence untouched. -/
theorem checkSingleApp_noop
    (lookup : Lookup) (now : Nat) (st : Storage) (existing fetched : AppInfo)
    (hl : lookup existing.bundleID = .ok fetched)
    (hv : fetched.version = existing.version) :
    checkSingleApp lookup now st existing =
      .ok (SaveApp st
        { fetched with firstDiscovered := existing.firstDiscovered, lastChecked := now },
        none) ∧
    (∀ b, GetVersionUpdates
        (SaveApp st
          { fetched with firstDiscovered := existing.firstDiscovered, lastChecked := now }) b =
      GetVersionUpdates st b) ∧
    ∃ cur, LoadApp
        (SaveApp st
          { fetched with firstDiscovered := existing.firstDiscovered, lastChecked := now })
        fetched.bundleID = .ok (some cur) ∧
      cur.lastChecked = now ∧
      cur.firstDiscovered = existing.firstDiscovered ∧
      cur.version = fetched.version ∧
      cur.fileSizeBytes = fetched.fileSizeBytes ∧
      cur.price = fetched.price ∧
      cur.releaseNotes = fetched.releaseNotes := by
  refine ⟨?_, fun b => GetVersionUpdates_SaveApp st _ b, ?_⟩
  · unfold checkSingleApp
    rw [hl]
    simp [hv]
  · refine ⟨{ fetched with firstDiscovered := existing.firstDiscovered, lastChecked := now },
      ?_, rfl, rfl, rfl, rfl, rfl, rfl⟩
    exact LoadApp_SaveApp_self st _

/-- Concrete instantiation of `checkSingleApp_noop`: stored and fetched
versions both "2.0". -/
theorem checkSingleApp_noop_witness :
    checkSingleApp (fun _ => .ok (sampleApp "com.a" "2.0" 7)) 9
        ⟨[], []⟩ (sampleApp "com.a" "2.0" 3) =
      .ok (SaveApp ⟨[], []⟩
        { sampleApp "com.a" "2.0" 7 with firstDiscovered := 3, lastChecked := 9 }, none) ∧
    (∀ b, GetVersionUpdates
        (SaveApp ⟨[], []⟩
          { sampleApp "com.a" "2.0" 7 with firstDiscovered := 3, lastChecked := 9 }) b =
      GetVersionUpdates ⟨[], []⟩ b) ∧
    ∃ cur, LoadApp
        (SaveApp ⟨[], []⟩
          { sampleApp "com.a" "2.0" 7 with firstDiscovered := 3, lastChecked := 9 })
        (sampleApp "com.a" "2.0" 7).bundleID = .ok (some cur) ∧
      cur.lastChecked = 9 ∧
      cur.firstDiscovered = 3 ∧
      cur.version = (sampleApp "com.a" "2.0" 7).version ∧
      cur.fileSizeBytes = (sampleApp "com.a" "2.0" 7).fileSizeBytes ∧
      cur.price = (sampleApp "com.a" "2.0" 7).price ∧
      cur.releaseNotes = (sampleApp "com.a" "2.0" 7).releaseNotes :=
  checkSingleApp_noop (fun _ => .ok (sampleApp "com.a" "2.0" 7)) 9
    ⟨[], []⟩ (sampleApp "com.a" "2.0" 3) (sampleApp "com.a" "2.0" 7) rfl rfl

/-- A fixed sample change record used by concrete-input witnesses. -/
def sampleUpd (bid old new : String) : VersionUpdate :=
  { bundleID := bid
    trackID := 1
    trackName := "Sample"
    oldVersion := old
    newVersion := new
    updatedAt := 5
    releaseNotes := "notes" }

/-- C2 counterexample: a corrupt current-state file makes `GetAllApps`
silently return the empty list (no decode error, record dropped), and a
corrupt history file is silently absorbed by `SaveVersionUpdate`, which
replaces it with just the new record — contradicting the claim that
every store operation surfaces a decode error on a malformed record. -/
theorem storage_decode_silently_absorbed_cex :
    GetAllApps ⟨[("com.a", .corrupt)], []⟩ = .ok [] ∧
    GetVersionUpdates
        (SaveVersionUpdate ⟨[], [("com.a", .corrupt)]⟩ (sampleUpd "com.a" "1.0" "1.1"))
        "com.a" = .ok [sampleUpd "com.a" "1.0" "1.1"] :=
  ⟨rfl, rfl⟩

/-- C2 (amended): `LoadApp` and `GetVersionUpdates` surface a decode
error on a malformed record, distinct from the absent outcome; but
`GetAllApps` silently skips undecodable records, and `SaveVersionUpdate`
silently treats an undecodable history as empty, overwriting it with
just the new record. -/
theorem storage_decode_error_semantics (st : Storage) (id : String) (u : VersionUpdate) :
    (getFile st.apps id = some .corrupt → LoadApp st id = .error .decode) ∧
    (getFile st.apps id = none → LoadApp st id = .ok none) ∧
    (getFile st.updates id = some .corrupt → GetVersionUpdates st id = .error .decode) ∧
    (GetAllApps st = .ok (st.apps.filterMap fun p =>
      match p.2 with
      | .good a => some a
      | .corrupt => none)) ∧
    (getFile st.updates u.bundleID = some .corrupt →
      GetVersionUpdates (SaveVersionUpdate st u) u.bundleID = .ok [u]) := by
  refine ⟨fun h => ?_, fun h => ?_, fun h => ?_, rfl, fun h => ?_⟩
  · simp [LoadApp, h]
  · simp [LoadApp, h]
  · simp [GetVersionUpdates, h]
  · simp [GetVersionUpdates, SaveVersionUpdate, h, getFile_setFile_self]

/-- Concrete instantiation of `storage_decode_error_semantics` on a
store whose files for "com.a" are all corrupt. -/
theorem storage_decode_error_semantics_witness :
    LoadApp ⟨[("com.a", .corrupt)], [("com.a", .corrupt)]⟩ "com.a" = .error .decode ∧
    GetVersionUpdates ⟨[("com.a", .corrupt)], [("com.a", .corrupt)]⟩ "com.a" =
      .error .decode ∧
    GetVersionUpdates
        (SaveVersionUpdate ⟨[("com.a", .corrupt)], [("com.a", .corrupt)]⟩
          (sampleUpd "com.a" "1.0" "1.1"))
        (sampleUpd "com.a" "1.0" "1.1").bundleID = .ok [sampleUpd "com.a" "1.0" "1.1"] := by
  have h := storage_decode_error_semantics ⟨[("com.a", .corrupt)], [("com.a", .corrupt)]⟩
    "com.a" (sampleUpd "com.a" "1.0" "1.1")
  exact ⟨h.1 rfl, h.2.2.1 rfl, h.2.2.2.2 rfl⟩

theorem getFile_filter_ne {α : Type} (l : List (String × α)) (id : String) :
    getFile (l.filter fun p => p.1 ≠ id) id = none := by
  induction l with
  | nil => rfl
  | cons p t ih =>
    obtain ⟨k, v⟩ := p
    by_cases h : k = id
    · simpa [List.filter_cons, h] using ih
    · simpa [List.filter_cons, h, getFile] using ih

/-- C3: after `RemoveApp id`, loading `id` yields the absent outcome,
the history of `id` is empty, and a subsequent `TrackApp id` takes the
first-time branch: it stores the freshly fetched snapshot as is, with
its own fresh `first_discovered`, carrying nothing forward. The removal
operation itself is modelled from the spec (§4.2), its implementation
not being under `src/`. -/
theorem removeApp_resets (st : Storage) (id : String) (lookup : Lookup) (app : AppInfo)
    (hl : lookup id = .ok app) :
    LoadApp (RemoveApp st id) id = .ok none ∧
    GetVersionHistory (RemoveApp st id) id = .ok [] ∧
    TrackApp lookup (RemoveApp st id) id = .ok (SaveApp (RemoveApp st id) app) ∧
    LoadApp (SaveApp (RemoveApp st id) app) app.bundleID = .ok (some app) := by
  have hload : LoadApp (RemoveApp st id) id = .ok none := by
    unfold LoadApp RemoveApp
    rw [getFile_filter_ne]
  refine ⟨hload, ?_, ?_, LoadApp_SaveApp_self _ app⟩
  · unfold GetVersionHistory GetVersionUpdates RemoveApp
    rw [getFile_filter_ne]
  · unfold TrackApp
    rw [hl, hload]

/-- Concrete instantiation of `removeApp_resets`: a store holding a
record and history for "com.a" whose stored `first_discovered` is 3,
re-tracked after removal with a fresh snapshot whose
`first_discovered` is 42. -/
theorem removeApp_resets_witness :
    LoadApp (RemoveApp ⟨[("com.a", .good (sampleApp "com.a" "1.0" 3))],
        [("com.a", .good [sampleUpd "com.a" "0.9" "1.0"])]⟩ "com.a") "com.a" = .ok none ∧
    GetVersionHistory (RemoveApp ⟨[("com.a", .good (sampleApp "com.a" "1.0" 3))],
        [("com.a", .good [sampleUpd "com.a" "0.9" "1.0"])]⟩ "com.a") "com.a" = .ok [] ∧
    TrackApp (fun _ => .ok (sampleApp "com.a" "1.0" 42))
        (RemoveApp ⟨[("com.a", .good (sampleApp "com.a" "1.0" 3))],
          [("com.a", .good [sampleUpd "com.a" "0.9" "1.0"])]⟩ "com.a") "com.a" =
      .ok (SaveApp (RemoveApp ⟨[("com.a", .good (sampleApp "com.a" "1.0" 3))],
          [("com.a", .good [sampleUpd "com.a" "0.9" "1.0"])]⟩ "com.a")
        (sampleApp "com.a" "1.0" 42)) ∧
    LoadApp (SaveApp (RemoveApp ⟨[("com.a", .good (sampleApp "com.a" "1.0" 3))],
          [("com.a", .good [sampleUpd "com.a" "0.9" "1.0"])]⟩ "com.a")
        (sampleApp "com.a" "1.0" 42)) (sampleApp "com.a" "1.0" 42).bundleID =
      .ok (some (sampleApp "com.a" "1.0" 42)) :=
  removeApp_resets ⟨[("com.a", .good (sampleApp "com.a" "1.0" 3))],
      [("com.a", .good [sampleUpd "com.a" "0.9" "1.0"])]⟩ "com.a"
    (fun _ => .ok (sampleApp "com.a" "1.0" 42)) (sampleApp "com.a" "1.0" 42) rfl

/-- Iterated `SaveVersionUpdate`: the effect of a run of successive
detected changes on the history store. -/
def appendAll (st : Storage) (l : List VersionUpdate) : Storage :=
  l.foldl SaveVersionUpdate st

/-- C5: starting from a history sequence `us` for `id`, appending a run
of change records (each keyed to `id`) yields exactly `us ++ l`: every
previously stored record survives, in order, and the new records land at
the end in insertion order. With `us = []`, after `n` successive
detected changes the history holds exactly those `n` records
chronologically. -/
theorem history_append_only (l : List VersionUpdate) (st : Storage) (id : String)
    (us : List VersionUpdate)
    (hb : ∀ u ∈ l, u.bundleID = id)
    (h0 : GetVersionUpdates st id = .ok us) :
    GetVersionUpdates (appendAll st l) id = .ok (us ++ l) := by
  revert hb h0
  induction l generalizing st us with
  | nil => intro hb h0; simpa [appendAll] using h0
  | cons u t ih =>
    intro hb h0
    have hu : u.bundleID = id := hb u (by simp)
    have h1 : GetVersionUpdates (SaveVersionUpdate st u) id = .ok (us ++ [u]) := by
      rw [← hu] at h0 ⊢
      exact GetVersionUpdates_SaveVersionUpdate_self st u us h0
    have h2 := ih (SaveVersionUpdate st u) (us ++ [u])
      (fun v hv => hb v (by simp [hv])) h1
    simpa [appendAll, List.append_assoc] using h2

/-- Concrete instantiation of `history_append_only`: three successive
changes "1.0"->"1.1"->"1.2"->"1.3" recorded into an empty store. -/
theorem history_append_only_witness :
    GetVersionUpdates
        (appendAll ⟨[], []⟩
          [sampleUpd "com.a" "1.0" "1.1", sampleUpd "com.a" "1.1" "1.2",
            sampleUpd "com.a" "1.2" "1.3"]) "com.a" =
      .ok ([] ++ [sampleUpd "com.a" "1.0" "1.1", sampleUpd "com.a" "1.1" "1.2",
        sampleUpd "com.a" "1.2" "1.3"]) :=
  history_append_only
    [sampleUpd "com.a" "1.0" "1.1", sampleUpd "com.a" "1.1" "1.2",
      sampleUpd "com.a" "1.2" "1.3"] ⟨[], []⟩ "com.a" []
    (by decide)
    rfl

/-- The decodable current-state records, in directory order: what
`GetAllApps` successfully returns. -/
def trackedApps (st : Storage) : List AppInfo :=
  st.apps.filterMap fun p =>
    match p.2 with
    | .good a => some a
    | .corrupt => none

theorem GetAllApps_eq (st : Storage) : GetAllApps st = .ok (trackedApps st) := rfl

/-- The update each single check contributes to the batch, as a pure
function of the remote behaviour: `none` when the lookup fails or the
version is unchanged. -/
def checkOutcome (lookup : Lookup) (now : Nat) (a : AppInfo) : Option VersionUpdate :=
  match lookup a.bundleID with
  | .error _ => none
  | .ok fetched =>
    if fetched.version ≠ a.version then
      some { bundleID := fetched.bundleID, trackID := fetched.trackID,
             trackName := fetched.trackName, oldVersion := a.version,
             newVersion := fetched.version, updatedAt := now,
             releaseNotes := fetched.releaseNotes }
    else none

theorem checkLoop_updates (lookup : Lookup) (now : Nat) (as : List AppInfo) (st : Storage) :
    (checkLoop lookup now as st).2.1 = as.filterMap (checkOutcome lookup now) := by
  induction as generalizing st with
  | nil => rfl
  | cons a rest ih =>
    cases hl : lookup a.bundleID with
    | error e =>
      simp [checkLoop, checkSingleApp, hl, checkOutcome, ih, List.filterMap_cons]
    | ok fetched =>
      by_cases hv : fetched.version = a.version
      · simp [checkLoop, checkSingleApp, hl, hv, checkOutcome, ih, List.filterMap_cons]
      · simp [checkLoop, checkSingleApp, hl, hv, checkOutcome, ih, List.filterMap_cons]

theorem checkLoop_logs (lookup : Lookup) (now : Nat) (as : List AppInfo) (st : Storage) :
    (checkLoop lookup now as st).2.2 = as.filterMap fun a =>
      match lookup a.bundleID with
      | .error _ => some (LogEvent.checkFailed a.bundleID)
      | .ok _ => none := by
  induction as generalizing st with
  | nil => rfl
  | cons a rest ih =>
    cases hl : lookup a.bundleID with
    | error e =>
      simp [checkLoop, checkSingleApp, hl, ih, List.filterMap_cons]
    | ok fetched =>
      by_cases hv : fetched.version = a.version
      · simp [checkLoop, checkSingleApp, hl, hv, ih, List.filterMap_cons]
      · simp [checkLoop, checkSingleApp, hl, hv, ih, List.filterMap_cons]

theorem CheckForUpdates_eq (lookup : Lookup) (now : Nat) (ntf : Notifier) (st : Storage) :
    CheckForUpdates lookup now ntf st =
      .ok ((checkLoop lookup now (trackedApps st) st).1,
        (checkLoop lookup now (trackedApps st) st).2.1,
        (checkLoop lookup now (trackedApps st) st).2.2 ++
          (if (checkLoop lookup now (trackedApps st) st).2.1.length > 0 ∧ ntf.enabled then
            match ntf.send (checkLoop lookup now (trackedApps st) st).2.1 with
            | .error _ => [LogEvent.notifyFailed]
            | .ok _ => []
          else [])) := by
  by_cases hn : (checkLoop lookup now (trackedApps st) st).2.1.length > 0 ∧ ntf.enabled
  · cases hs : ntf.send (checkLoop lookup now (trackedApps st) st).2.1 with
    | error m => simp [CheckForUpdates, GetAllApps_eq, hn, hs]
    | ok u => simp [CheckForUpdates, GetAllApps_eq, hn, hs]
  · simp [CheckForUpdates, GetAllApps_eq, hn]

/-- C7: `CheckForUpdates` never aborts the batch: it always returns a
batch (never an error), that batch is exactly the per-item outcomes of
the items whose lookups succeeded and changed version — items whose
lookup fails contribute nothing — and every failing item is logged. -/
theorem checkAll_batch_isolation (lookup : Lookup) (now : Nat) (ntf : Notifier)
    (st : Storage) :
    ∃ st' us logs, CheckForUpdates lookup now ntf st = .ok (st', us, logs) ∧
      us = (trackedApps st).filterMap (checkOutcome lookup now) ∧
      ∀ a ∈ trackedApps st, ∀ e, lookup a.bundleID = .error e →
        LogEvent.checkFailed a.bundleID ∈ logs := by
  refine ⟨_, _, _, CheckForUpdates_eq lookup now ntf st, checkLoop_updates _ _ _ _, ?_⟩
  intro a ha e he
  have hmem : LogEvent.checkFailed a.bundleID ∈
      (checkLoop lookup now (trackedApps st) st).2.2 := by
    rw [checkLoop_logs]
    exact List.mem_filterMap.mpr ⟨a, ha, by rw [he]⟩
  exact List.mem_append_left _ hmem

/-- Concrete instantiation of `checkAll_batch_isolation`: three tracked
apps; the second's lookup fails with a network error; the batch still
returns the first app's detected change and logs the failure. -/
theorem checkAll_batch_isolation_witness :
    ∃ st' us logs,
      CheckForUpdates
          (fun bid =>
            if bid = "com.a" then .ok (sampleApp "com.a" "1.1" 7)
            else if bid = "com.b" then .error .network
            else .ok (sampleApp "com.c" "2.0" 7))
          9 ⟨true, fun _ => .ok ()⟩
          ⟨[("com.a", .good (sampleApp "com.a" "1.0" 3)),
            ("com.b", .good (sampleApp "com.b" "5.0" 3)),
            ("com.c", .good (sampleApp "com.c" "2.0" 3))], []⟩ =
        .ok (st', us, logs) ∧
      us = [{ bundleID := "com.a", trackID := 1, trackName := "Sample",
              oldVersion := "1.0", newVersion := "1.1", updatedAt := 9,
              releaseNotes := "notes" }] ∧
      LogEvent.checkFailed "com.b" ∈ logs := by
  obtain ⟨st', us, logs, h1, h2, h3⟩ := checkAll_batch_isolation
    (fun bid =>
      if bid = "com.a" then .ok (sampleApp "com.a" "1.1" 7)
      else if bid = "com.b" then .error .network
      else .ok (sampleApp "com.c" "2.0" 7))
    9 ⟨true, fun _ => .ok ()⟩
    ⟨[("com.a", .good (sampleApp "com.a" "1.0" 3)),
      ("com.b", .good (sampleApp "com.b" "5.0" 3)),
      ("com.c", .good (sampleApp "com.c" "2.0" 3))], []⟩
  refine ⟨st', us, logs, h1, ?_, ?_⟩
  · rw [h2]
    decide
  · exact h3 (sampleApp "com.b" "5.0" 3) (by decide) LookupError.network rfl

/-- C8: the outcome of the notifier's batch send never influences the
batch `CheckForUpdates` returns: for any two send behaviours, the call
returns `ok` with the identical final storage state and the identical
update batch (only the log can differ). -/
theorem checkAll_notify_failure_harmless (lookup : Lookup) (now : Nat) (enabled : Bool)
    (send send' : List VersionUpdate → Except String Unit) (st : Storage) :
    ∃ st' us logs logs',
      CheckForUpdates lookup now ⟨enabled, send⟩ st = .ok (st', us, logs) ∧
      CheckForUpdates lookup now ⟨enabled, send'⟩ st = .ok (st', us, logs') :=
  ⟨_, _, _, _, rfl, rfl⟩

theorem clampSearchLimit_nonpos (limit : Int) (h : limit ≤ 0) :
    clampSearchLimit limit = 10 := by
  show (if (if limit ≤ 0 then (10:Int) else limit) > 50 then (50:Int)
    else (if limit ≤ 0 then 10 else limit)) = 10
  split_ifs <;> omega

theorem clampSearchLimit_big (limit : Int) (h : limit > 50) :
    clampSearchLimit limit = 50 := by
  show (if (if limit ≤ 0 then (10:Int) else limit) > 50 then (50:Int)
    else (if limit ≤ 0 then 10 else limit)) = 50
  split_ifs <;> omega

theorem clampSearchLimit_le (limit : Int) : clampSearchLimit limit ≤ 50 := by
  show (if (if limit ≤ 0 then (10:Int) else limit) > 50 then (50:Int)
    else (if limit ≤ 0 then 10 else limit)) ≤ 50
  split_ifs <;> omega

/-- C9: a non-positive requested limit makes `SearchApps` behave exactly
as a request with limit 10; any limit above 50 behaves exactly as limit
50; and — provided the remote honours the limit parameter it is sent —
a successful search never returns more than 50 results, whatever
the caller requested. -/
theorem searchApps_limit_clamping (api : String → Int → FetchOutcome)
    (parseDate : String → Option Nat) (now : Nat) (term : String)
    (hapi : ∀ l itr, api term l = .reply 200 (some itr) →
      itr.results.length ≤ l.toNat) :
    (∀ limit : Int, limit ≤ 0 →
      SearchApps api parseDate now term limit = SearchApps api parseDate now term 10) ∧
    (∀ limit : Int, limit > 50 →
      SearchApps api parseDate now term limit = SearchApps api parseDate now term 50) ∧
    (∀ limit : Int, ∀ apps, SearchApps api parseDate now term limit = .ok apps →
      apps.length ≤ 50) := by
  refine ⟨fun limit h => ?_, fun limit h => ?_, fun limit apps h => ?_⟩
  · have h1 : clampSearchLimit limit = 10 := clampSearchLimit_nonpos limit h
    have h2 : clampSearchLimit 10 = 10 := by unfold clampSearchLimit; norm_num
    simp only [SearchApps, h1, h2]
  · have h1 : clampSearchLimit limit = 50 := clampSearchLimit_big limit h
    have h2 : clampSearchLimit 50 = 50 := by unfold clampSearchLimit; norm_num
    simp only [SearchApps, h1, h2]
  · unfold SearchApps at h
    cases hr : api term (clampSearchLimit limit) with
    | netError => rw [hr] at h; exact absurd h (by simp)
    | reply status body =>
      rw [hr] at h
      by_cases hs : status = 200
      · subst hs
        cases body with
        | none => simp at h
        | some itr =>
          simp only [ne_eq, not_true_eq_false, ite_false, if_neg, Except.ok.injEq,
            not_false_eq_true] at h
          have hlen := hapi (clampSearchLimit limit) itr hr
          have hle : (clampSearchLimit limit).toNat ≤ 50 := by
            have := clampSearchLimit_le limit
            omega
          calc apps.length ≤ itr.results.length := by
                rw [← h]
                exact List.length_filterMap_le _ _
            _ ≤ (clampSearchLimit limit).toNat := hlen
            _ ≤ 50 := hle
      · simp [hs] at h

/-- Concrete instantiation of `searchApps_limit_clamping` with a remote
that always returns an empty decoded 200 reply (which honours any
limit). -/
theorem searchApps_limit_clamping_witness :
    (SearchApps (fun _ _ => .reply 200 (some ⟨0, []⟩)) (fun _ => none) 7 "maps" 0 =
      SearchApps (fun _ _ => .reply 200 (some ⟨0, []⟩)) (fun _ => none) 7 "maps" 10) ∧
    (SearchApps (fun _ _ => .reply 200 (some ⟨0, []⟩)) (fun _ => none) 7 "maps" 1000 =
      SearchApps (fun _ _ => .reply 200 (some ⟨0, []⟩)) (fun _ => none) 7 "maps" 50) ∧
    ∀ apps, SearchApps (fun _ _ => .reply 200 (some ⟨0, []⟩)) (fun _ => none) 7 "maps" 1000 =
      .ok apps → apps.length ≤ 50 := by
  obtain ⟨h1, h2, h3⟩ := searchApps_limit_clamping (fun _ _ => .reply 200 (some ⟨0, []⟩))
    (fun _ => none) 7 "maps"
    (by intro l itr h
        injection h with h1 h2
        injection h2 with h2
        rw [← h2]
        simp)
  exact ⟨h1 0 (by norm_num), h2 1000 (by norm_num), fun apps h => h3 1000 apps h⟩

/-- A raw catalog record none of whose stringly-typed metadata fields
parses, used by concrete-input witnesses. -/
def junkITunes : ITunesApp :=
  { trackId := 0
    bundleId := "com.x"
    trackName := "X"
    version := "1.0"
    currentVersionReleaseDate := "not-a-date"
    releaseNotes := ""
    artistName := ""
    minimumOsVersion := ""
    fileSizeBytes := "not-a-number"
    price := 0
    currency := "USD" }

/-- C10: converting a raw catalog record always succeeds — an
unparsable release-date string falls back to the current time, an
unparsable file-size string falls back to byte size 0 — so a lookup
whose HTTP reply is a decoded 200 with a nonempty result list returns
`ok` no matter how malformed the metadata field values are; lookup
errors can only arise from the network, a non-200 status, an
undecodable body, or zero results. -/
theorem convertToAppInfo_total (parseDate : String → Option Nat) (now : Nat) :
    (∀ app : ITunesApp, ∃ a, convertToAppInfo parseDate now app = .ok a ∧
      (parseDate app.currentVersionReleaseDate = none → a.releaseDate = now) ∧
      (∀ d, parseDate app.currentVersionReleaseDate = some d → a.releaseDate = d) ∧
      (scanInt app.fileSizeBytes = none → a.fileSizeBytes = 0) ∧
      (∀ n, scanInt app.fileSizeBytes = some n → a.fileSizeBytes = n)) ∧
    (∀ itr : ITunesResponse, ∀ a rest, itr.resultCount ≠ 0 → itr.results = a :: rest →
      ∃ x, LookupByBundleID (.reply 200 (some itr)) parseDate now = .ok x) := by
  constructor
  · intro app
    refine ⟨_, rfl, fun h => ?_, fun d hd => ?_, fun h => ?_, fun n hn => ?_⟩
    · simp [h]
    · simp [hd]
    · simp [h]
    · simp [hn]
  · intro itr a rest hc hres
    have hx : LookupByBundleID (.reply 200 (some itr)) parseDate now =
        convertToAppInfo parseDate now a := by
      unfold LookupByBundleID
      simp [hc, hres]
    rw [hx]
    exact ⟨_, rfl⟩

/-- Concrete instantiation of `convertToAppInfo_total` on a record whose
date and size fields are both unparsable. -/
theorem convertToAppInfo_total_witness :
    (∃ a, convertToAppInfo (fun _ => none) 7 junkITunes = .ok a ∧
      a.releaseDate = 7 ∧ a.fileSizeBytes = 0) ∧
    (∃ x, LookupByBundleID (.reply 200 (some ⟨1, [junkITunes]⟩)) (fun _ => none) 7 =
      .ok x) := by
  obtain ⟨h1, h2⟩ := convertToAppInfo_total (fun _ => none) 7
  obtain ⟨a, ha, hd, _, hs, _⟩ := h1 junkITunes
  exact ⟨⟨a, ha, hd rfl, hs rfl⟩, h2 ⟨1, [junkITunes]⟩ junkITunes [] (by decide) rfl⟩

/-- One foreground or background operation touching the store: an
ad-hoc `TrackApp` call or a full `CheckForUpdates` run, each against
whatever remote behaviour held at that moment. -/
inductive Op where
  | track (lookup : Lookup) (bundleID : String)
  | checkAll (lookup : Lookup) (now : Nat) (ntf : Notifier)

/-- The storage state after one operation. A failed `TrackApp` writes
nothing (both its error paths return before any save). -/
def applyOp (st : Storage) : Op → Storage
  | .track lookup bid =>
    match TrackApp lookup st bid with
    | .ok st' => st'
    | .error _ => st
  | .checkAll lookup now ntf =>
    match CheckForUpdates lookup now ntf st with
    | .ok r => r.1
    | .error _ => st

def applyOps (st : Storage) (ops : List Op) : Storage :=
  ops.foldl applyOp st

/-- The remote catalog answers a lookup for `id` with a snapshot whose
bundle identifier is `id` — the contract of the keyed lookup
endpoint. -/
def LookupWF (lookup : Lookup) : Prop :=
  ∀ id a, lookup id = .ok a → a.bundleID = id

def OpWF : Op → Prop
  | .track lookup _ => LookupWF lookup
  | .checkAll lookup _ _ => LookupWF lookup

/-- A well-formed `apps/` directory: every decodable record is stored
under the file named by its own bundle identifier, and file names are
unique (as on a real file system). -/
def WFapps (l : List (String × AppFile)) : Prop :=
  (∀ p ∈ l, ∀ a : AppInfo, p.2 = .good a → a.bundleID = p.1) ∧
  (l.map Prod.fst).Nodup

/-- The stored current-state record for `id` exists, decodes, and
carries `first_discovered = fd`. -/
def hasFirst (st : Storage) (id : String) (fd : Nat) : Prop :=
  ∃ a, getFile st.apps id = some (.good a) ∧ a.firstDiscovered = fd

theorem mem_setFile {α : Type} (l : List (String × α)) (k : String) (v : α)
    (p : String × α) (hp : p ∈ setFile l k v) : p = (k, v) ∨ p ∈ l := by
  induction l with
  | nil => simpa [setFile] using hp
  | cons q t ih =>
    obtain ⟨k', v'⟩ := q
    by_cases h : k' = k
    · simp only [setFile, if_pos h] at hp
      rcases List.mem_cons.mp hp with h1 | h1
      · exact Or.inl h1
      · exact Or.inr (List.mem_cons_of_mem _ h1)
    · simp only [setFile, if_neg h] at hp
      rcases List.mem_cons.mp hp with h1 | h1
      · exact Or.inr (by simp [h1])
      · rcases ih h1 with h2 | h2
        · exact Or.inl h2
        · exact Or.inr (List.mem_cons_of_mem _ h2)

theorem keys_setFile {α : Type} (l : List (String × α)) (k : String) (v : α) :
    (setFile l k v).map Prod.fst =
      if k ∈ l.map Prod.fst then l.map Prod.fst else l.map Prod.fst ++ [k] := by
  induction l with
  | nil => simp [setFile]
  | cons q t ih =>
    obtain ⟨k', v'⟩ := q
    by_cases h : k' = k
    · subst h
      simp [setFile]
    · simp only [setFile, if_neg h, List.map_cons, ih]
      by_cases hm : k ∈ t.map Prod.fst
      · simp [hm, Ne.symm h]
      · simp [hm, Ne.symm h]

theorem nodup_keys_setFile {α : Type} (l : List (String × α)) (k : String) (v : α)
    (h : (l.map Prod.fst).Nodup) : ((setFile l k v).map Prod.fst).Nodup := by
  rw [keys_setFile]
  by_cases hm : k ∈ l.map Prod.fst
  · simpa [hm] using h
  · simp [hm, List.nodup_append, h]

theorem getFile_eq_some_of_mem {α : Type} (l : List (String × α)) (k : String) (v : α)
    (hnd : (l.map Prod.fst).Nodup) (hm : (k, v) ∈ l) : getFile l k = some v := by
  induction l with
  | nil => simp at hm
  | cons q t ih =>
    obtain ⟨k', v'⟩ := q
    simp only [List.map_cons, List.nodup_cons] at hnd
    rcases List.mem_cons.mp hm with h1 | h1
    · injection h1 with hk hv
      subst hk
      subst hv
      simp [getFile]
    · have hk : k' ≠ k := by
        intro he
        subst he
        exact hnd.1 (List.mem_map.mpr ⟨(k', v), h1, rfl⟩)
      simp only [getFile, if_neg hk]
      exact ih hnd.2 h1

theorem WFapps_setFile (l : List (String × AppFile)) (b : AppInfo) (h : WFapps l) :
    WFapps (setFile l b.bundleID (.good b)) := by
  constructor
  · intro p hp a ha
    rcases mem_setFile _ _ _ p hp with h1 | h1
    · subst h1
      injection ha with hba
      subst hba
      rfl
    · exact h.1 p h1 a ha
  · exact nodup_keys_setFile _ _ _ h.2

theorem checkSingleApp_apps (lookup : Lookup) (now : Nat) (st : Storage) (a : AppInfo)
    (hwl : LookupWF lookup) (st' : Storage) (u? : Option VersionUpdate)
    (h : checkSingleApp lookup now st a = .ok (st', u?)) :
    ∃ c : AppInfo, c.bundleID = a.bundleID ∧ c.firstDiscovered = a.firstDiscovered ∧
      st'.apps = setFile st.apps a.bundleID (.good c) := by
  cases hl : lookup a.bundleID with
  | error e =>
    unfold checkSingleApp at h
    rw [hl] at h
    simp at h
  | ok fetched =>
    have hbid : fetched.bundleID = a.bundleID := hwl _ _ hl
    by_cases hv : fetched.version = a.version
    · have he : checkSingleApp lookup now st a =
          .ok (SaveApp st
            { fetched with firstDiscovered := a.firstDiscovered, lastChecked := now },
            none) := by
        unfold checkSingleApp
        rw [hl]
        simp [hv]
      rw [he] at h
      simp only [Except.ok.injEq, Prod.mk.injEq] at h
      refine ⟨{ fetched with firstDiscovered := a.firstDiscovered, lastChecked := now },
        by simp [hbid], rfl, ?_⟩
      rw [← h.1]
      simp [SaveApp, hbid]
    · have he : checkSingleApp lookup now st a =
          .ok (SaveApp
            (SaveVersionUpdate st
              { bundleID := fetched.bundleID, trackID := fetched.trackID,
                trackName := fetched.trackName, oldVersion := a.version,
                newVersion := fetched.version, updatedAt := now,
                releaseNotes := fetched.releaseNotes })
            { fetched with firstDiscovered := a.firstDiscovered },
            some
              { bundleID := fetched.bundleID, trackID := fetched.trackID,
                trackName := fetched.trackName, oldVersion := a.version,
                newVersion := fetched.version, updatedAt := now,
                releaseNotes := fetched.releaseNotes }) := by
        unfold checkSingleApp
        rw [hl]
        simp [hv]
      rw [he] at h
      simp only [Except.ok.injEq, Prod.mk.injEq] at h
      refine ⟨{ fetched with firstDiscovered := a.firstDiscovered },
        by simp [hbid], rfl, ?_⟩
      rw [← h.1]
      simp [SaveApp, SaveVersionUpdate, hbid]

theorem checkLoop_preserves (lookup : Lookup) (now : Nat) (hwl : LookupWF lookup)
    (id : String) (fd : Nat) (as : List AppInfo) (st : Storage)
    (h1 : WFapps st.apps) (h2 : hasFirst st id fd)
    (h3 : ∀ a ∈ as, a.bundleID = id → a.firstDiscovered = fd) :
    WFapps (checkLoop lookup now as st).1.apps ∧
    hasFirst (checkLoop lookup now as st).1 id fd := by
  revert h1 h2 h3
  induction as generalizing st with
  | nil =>
    intro h1 h2 h3
    exact ⟨h1, h2⟩
  | cons a rest ih =>
    intro h1 h2 h3
    cases hc : checkSingleApp lookup now st a with
    | error e =>
      have := ih st h1 h2 (fun b hb => h3 b (List.mem_cons_of_mem _ hb))
      simpa [checkLoop, hc] using this
    | ok pr =>
      obtain ⟨st1, u?⟩ := pr
      obtain ⟨c, hcb, hcf, happs⟩ := checkSingleApp_apps lookup now st a hwl st1 u? hc
      have h1' : WFapps st1.apps := by
        rw [happs, ← hcb]
        exact WFapps_setFile st.apps c h1
      have h2' : hasFirst st1 id fd := by
        by_cases hid : a.bundleID = id
        · refine ⟨c, ?_, ?_⟩
          · rw [happs, hid]
            exact getFile_setFile_self _ _ _
          · rw [hcf]
            exact h3 a (List.mem_cons_self _ _) hid
        · obtain ⟨a₀, hg, hf⟩ := h2
          refine ⟨a₀, ?_, hf⟩
          rw [happs, getFile_setFile_ne _ _ _ _ (fun he => hid he.symm)]
          exact hg
      have hrest := ih st1 h1' h2' (fun b hb => h3 b (List.mem_cons_of_mem _ hb))
      cases u? with
      | some u => simpa [checkLoop, hc] using hrest
      | none => simpa [checkLoop, hc] using hrest

theorem trackedApps_first (st : Storage) (id : String) (fd : Nat)
    (h1 : WFapps st.apps) (h2 : hasFirst st id fd) :
    ∀ a ∈ trackedApps st, a.bundleID = id → a.firstDiscovered = fd := by
  intro a ha hid
  obtain ⟨p, hp, hgood⟩ := List.mem_filterMap.mp ha
  obtain ⟨k, f⟩ := p
  cases f with
  | corrupt => simp at hgood
  | good b =>
    simp only at hgood
    injection hgood with hba
    subst hba
    have hkey : b.bundleID = k := h1.1 (k, .good b) hp b rfl
    rw [hid] at hkey
    subst hkey
    have hg : getFile st.apps id = some (.good b) :=
      getFile_eq_some_of_mem _ _ _ h1.2 hp
    obtain ⟨a₀, hg₀, hf₀⟩ := h2
    rw [hg] at hg₀
    simp only [Option.some.injEq] at hg₀
    injection hg₀ with ha₀
    rw [ha₀]
    exact hf₀

theorem applyOp_checkAll_eq (lookup : Lookup) (now : Nat) (ntf : Notifier) (st : Storage) :
    applyOp st (.checkAll lookup now ntf) = (checkLoop lookup now (trackedApps st) st).1 := by
  show (match CheckForUpdates lookup now ntf st with
    | .ok r => r.1
    | .error _ => st) = (checkLoop lookup now (trackedApps st) st).1
  rw [CheckForUpdates_eq]

theorem applyOp_preserves (op : Op) (st : Storage) (id : String) (fd : Nat)
    (hop : OpWF op) (h1 : WFapps st.apps) (h2 : hasFirst st id fd) :
    WFapps (applyOp st op).apps ∧ hasFirst (applyOp st op) id fd := by
  cases op with
  | track lookup bid =>
    have hwl : LookupWF lookup := hop
    cases ht : TrackApp lookup st bid with
    | error e => simpa [applyOp, ht] using ⟨h1, h2⟩
    | ok st' =>
      have hgoal : WFapps st'.apps ∧ hasFirst st' id fd := by
        unfold TrackApp at ht
        cases hl : lookup bid with
        | error e =>
          rw [hl] at ht
          simp at ht
        | ok app =>
          rw [hl] at ht
          have hb : app.bundleID = bid := hwl _ _ hl
          cases hload : LoadApp st bid with
          | error e =>
            rw [hload] at ht
            simp at ht
          | ok o =>
            rw [hload] at ht
            cases o with
            | none =>
              simp only [Except.ok.injEq] at ht
              subst ht
              have hbid : bid ≠ id := by
                intro he
                subst he
                obtain ⟨a₀, hg, _⟩ := h2
                unfold LoadApp at hload
                rw [hg] at hload
                simp at hload
              refine ⟨WFapps_setFile st.apps app h1, ?_⟩
              obtain ⟨a₀, hg, hf⟩ := h2
              refine ⟨a₀, ?_, hf⟩
              show getFile (setFile st.apps app.bundleID (.good app)) id = some (.good a₀)
              rw [getFile_setFile_ne _ _ _ _ (by rw [hb]; exact fun he => hbid he.symm)]
              exact hg
            | some existing =>
              simp only [Except.ok.injEq] at ht
              subst ht
              refine ⟨WFapps_setFile st.apps
                { app with firstDiscovered := existing.firstDiscovered } h1, ?_⟩
              by_cases hid : bid = id
              · subst hid
                obtain ⟨a₀, hg, hf⟩ := h2
                have hex : existing = a₀ := by
                  unfold LoadApp at hload
                  rw [hg] at hload
                  simp only [Except.ok.injEq, Option.some.injEq] at hload
                  exact hload.symm
                refine ⟨{ app with firstDiscovered := existing.firstDiscovered }, ?_, ?_⟩
                · show getFile (setFile st.apps
                    ({ app with firstDiscovered := existing.firstDiscovered } : AppInfo).bundleID
                    (.good { app with firstDiscovered := existing.firstDiscovered })) bid =
                    some (.good { app with firstDiscovered := existing.firstDiscovered })
                  have : ({ app with firstDiscovered := existing.firstDiscovered } :
                      AppInfo).bundleID = bid := hb
                  rw [this]
                  exact getFile_setFile_self _ _ _
                · show existing.firstDiscovered = fd
                  rw [hex]
                  exact hf
              · obtain ⟨a₀, hg, hf⟩ := h2
                refine ⟨a₀, ?_, hf⟩
                show getFile (setFile st.apps
                  ({ app with firstDiscovered := existing.firstDiscovered } : AppInfo).bundleID
                  (.good { app with firstDiscovered := existing.firstDiscovered })) id =
                  some (.good a₀)
                have hne : id ≠ ({ app with firstDiscovered := existing.firstDiscovered } :
                    AppInfo).bundleID := by
                  show id ≠ app.bundleID
                  rw [hb]
                  exact fun he => hid he.symm
                rw [getFile_setFile_ne _ _ _ _ hne]
                exact hg
      simpa [applyOp, ht] using hgoal
  | checkAll lookup now ntf =>
    have hwl : LookupWF lookup := hop
    rw [applyOp_checkAll_eq]
    exact checkLoop_preserves lookup now hwl id fd (trackedApps st) st h1 h2
      (trackedApps_first st id fd h1 h2)

theorem applyOps_preserves (ops : List Op) (st : Storage) (id : String) (fd : Nat)
    (hops : ∀ op ∈ ops, OpWF op) (h1 : WFapps st.apps) (h2 : hasFirst st id fd) :
    WFapps (applyOps st ops).apps ∧ hasFirst (applyOps st ops) id fd := by
  revert hops h1 h2
  induction ops generalizing st with
  | nil =>
    intro _ h1 h2
    exact ⟨h1, h2⟩
  | cons op rest ih =>
    intro hops h1 h2
    have hstep := applyOp_preserves op st id fd (hops op (List.mem_cons_self _ _)) h1 h2
    have hrest := ih (applyOp st op) (fun o ho => hops o (List.mem_cons_of_mem _ ho))
      hstep.1 hstep.2
    simpa [applyOps, List.foldl_cons] using hrest

/-- C4: once a tracked identifier's current-state record exists with a
given `first_discovered` value, no sequence of subsequent `TrackApp`
calls and `CheckForUpdates` runs — over any remote behaviours honouring
the keyed-lookup contract, on any well-formed store — ever changes the
persisted `first_discovered` for that identifier: every subsequent
write carries the original value forward. -/
theorem first_discovered_immutable (ops : List Op) (st : Storage) (id : String)
    (a₀ : AppInfo) (hwf : WFapps st.apps) (hops : ∀ op ∈ ops, OpWF op)
    (h0 : LoadApp st id = .ok (some a₀)) :
    ∃ a, LoadApp (applyOps st ops) id = .ok (some a) ∧
      a.firstDiscovered = a₀.firstDiscovered := by
  have h2 : hasFirst st id a₀.firstDiscovered := by
    unfold LoadApp at h0
    cases hg : getFile st.apps id with
    | none =>
      rw [hg] at h0
      simp at h0
    | some f =>
      cases f with
      | corrupt =>
        rw [hg] at h0
        simp at h0
      | good b =>
        rw [hg] at h0
        simp only [Except.ok.injEq, Option.some.injEq] at h0
        exact ⟨b, hg, by rw [h0]⟩
  obtain ⟨-, a, hg, hf⟩ := applyOps_preserves ops st id a₀.firstDiscovered hops hwf h2
  refine ⟨a, ?_, hf⟩
  unfold LoadApp
  rw [hg]

/-- Concrete instantiation of `first_discovered_immutable`: a store
tracking "com.a" with `first_discovered = 3`, re-tracked and then batch
checked against remotes reporting new versions with fresh
`first_discovered` values 9 and 12; the stored value stays 3. -/
theorem first_discovered_immutable_witness :
    ∃ a, LoadApp (applyOps ⟨[("com.a", .good (sampleApp "com.a" "1.0" 3))], []⟩
        [.track (fun bid => .ok (sampleApp bid "2.0" 9)) "com.a",
          .checkAll (fun bid => .ok (sampleApp bid "2.1" 12)) 11 ⟨false, fun _ => .ok ()⟩])
      "com.a" = .ok (some a) ∧
      a.firstDiscovered = (sampleApp "com.a" "1.0" 3).firstDiscovered := by
  apply first_discovered_immutable
  · constructor
    · intro p hp a ha
      simp only [List.mem_singleton] at hp
      subst hp
      injection ha with h
      rw [← h]
      rfl
    · simp
  · intro op hop
    rcases List.mem_cons.mp hop with h | h
    · subst h
      intro i a hia
      injection hia with hia
      rw [← hia]
      rfl
    · rcases List.mem_cons.mp h with h2 | h2
      · subst h2
        intro i a hia
        injection hia with hia
        rw [← hia]
        rfl
      · simp at h2
  · rfl

end Mavt
